import Mathlib

/- Shallow embedding of the pyBA statistical core (pyBA/classes.py and
pyBA/distortion.py) over the real numbers.

The Python source computes with IEEE floating point and numpy arrays; here
machine floats are modelled by `ℝ` (so real-arithmetic definitions are
`noncomputable`), 2-vectors by `Fin 2 → ℝ`, 2x2 matrices by
`Matrix (Fin 2) (Fin 2) ℝ`, and the 7-parameter background-mapping state by
`Fin 7 → ℝ` with a 7x7 covariance.  IEEE infinities, which the source stores
in Bgmap covariance matrices, are modelled by `EReal` entries.  Python
exceptions are modelled by `Except PyError`.  External randomness
(`np.random.randn`) is passed in as an explicit argument.  `numpy.linalg.eigh`
(used only on 2x2 matrices) is embedded concretely by the closed-form
symmetric 2x2 eigendecomposition below, which reads the lower triangle of its
argument exactly as `eigh` (UPLO='L') does. -/

open scoped Classical
open Matrix

namespace PyBA

/-- Python exception classes raised by the embedded code.  `zeroException`,
`samplingException` and `shapeException` are the classes defined in
pyBA/classes.py; the remaining constructors model exceptions raised by Python
or numpy themselves (ValueError from shape-mismatched `np.dot`, LinAlgError
from `np.linalg.solve` on a singular matrix, ImportError from a failed
`from ... import ...`, AttributeError from a missing attribute, TypeError
from a call with incompatible arguments, IndexError from out-of-range
indexing). -/
inductive PyError where
  | zeroException
  | samplingException
  | shapeException
  | valueError
  | linAlgError
  | importError
  | attributeError
  | typeError
  | indexError
deriving DecidableEq

abbrev Vec2 := Fin 2 → ℝ

abbrev Mat2 := Matrix (Fin 2) (Fin 2) ℝ

/-- The forms a covariance specification can take when constructing a
`Bivarg` (classes.py lines 99-106): a scalar, a 2-vector of independent
variances, a 3-vector (var_x, var_y, covariance), or a full 2x2 matrix.
Any other numpy shape raises ShapeException in the source; such shapes are
not representable in this inductive. -/
inductive CovSpec where
  | scalar (s : ℝ)
  | vec2 (a b : ℝ)
  | vec3 (a b c : ℝ)
  | mat (M : Mat2)

/-- Normalisation of a covariance specification into a 2x2 matrix, exactly
as in `Bivarg.__init__` (classes.py lines 99-106). -/
def parseSigma : CovSpec → Mat2
  | .scalar s => !![s, 0; 0, s]
  | .vec2 a b => !![a, 0; 0, b]
  | .vec3 a b c => !![a, c; c, b]
  | .mat M => M

/-- The rotation matrix `[[cos θ, -sin θ], [sin θ, cos θ]]` built at
classes.py lines 128-130 and 188-189. -/
noncomputable def rotU (θ : ℝ) : Mat2 :=
  !![Real.cos θ, -Real.sin θ; Real.sin θ, Real.cos θ]

/-- The symmetric matrix that `numpy.linalg.eigh` actually decomposes: `eigh`
with its default UPLO='L' reads only the lower triangle of its argument. -/
def lowerSymm (M : Mat2) : Mat2 :=
  !![M 0 0, M 1 0; M 1 0, M 1 1]

/-- Closed-form eigendecomposition of the symmetric 2x2 matrix
`[[a, b], [b, c]]` read from the lower triangle of `M` (a := M 0 0,
b := M 1 0, c := M 1 1), modelling `numpy.linalg.eigh` at classes.py
line 124.  Returns `(E, V)` with `E` the diagonal matrix of eigenvalues in
ascending order (as `eigh` returns them, and as `self.E = np.diag(...)`
stores them) and `V` the orthonormal matrix whose columns are the
corresponding eigenvectors.  The theorem `eigh2_reconstruct` below proves
`V * E * Vᵀ` recovers the (lower-triangle-symmetrised) input, which is the
only property of the library decomposition the source relies on. -/
noncomputable def eigh2 (M : Mat2) : Mat2 × Mat2 :=
  let a := M 0 0
  let b := M 1 0
  let c := M 1 1
  if b = 0 then
    if a ≤ c then (!![a, 0; 0, c], 1)
    else (!![c, 0; 0, a], !![0, 1; 1, 0])
  else
    let D := Real.sqrt ((a - c) ^ 2 + 4 * b ^ 2)
    let l1 := (a + c - D) / 2
    let l2 := (a + c + D) / 2
    let n1 := Real.sqrt (b ^ 2 + (l1 - a) ^ 2)
    let n2 := Real.sqrt (b ^ 2 + (l2 - a) ^ 2)
    (!![l1, 0; 0, l2], !![b / n1, b / n2; (l1 - a) / n1, (l2 - a) / n2])

/-- The (possibly rotated) eigenvector matrix stored as `self.V`
(classes.py lines 124-131): the eigenvectors of the parsed covariance,
premultiplied by the rotation `U` when `theta != 0`. -/
noncomputable def beigvecs (S : Mat2) (θ : ℝ) : Mat2 :=
  if θ = 0 then (eigh2 S).2 else rotU θ * (eigh2 S).2

/-- The covariance stored as `self.sigma` in the non-point branch
(classes.py line 133): the reconstitution `V · E · Vᵀ` from the (possibly
rotated) eigenbasis. -/
noncomputable def bsigma (S : Mat2) (θ : ℝ) : Mat2 :=
  beigvecs S θ * (eigh2 S).1 * (beigvecs S θ)ᵀ

/-- The explicit lower-triangular Cholesky factor computed at classes.py
lines 139-141 from the stored covariance. -/
noncomputable def cholOf (s : Mat2) : Mat2 :=
  !![Real.sqrt (s 0 0), 0;
     s 0 1 / Real.sqrt (s 0 0), Real.sqrt (s 1 1 - s 1 0 * s 0 1 / s 0 0)]

/-- Bivariate gaussian object (classes.py `Bivarg`).  Fields follow the
attributes set in `__init__`: `mu`, the `point` flag, `sigma`, `det`, and —
only in the non-point branch (hence `Option`) — `trace`, the Cholesky factor
`chol`, the eigenvalue matrix `E` and eigenvector matrix `V`.  (The derived
orientation angle `self.theta`, a display quantity computed via `atan2` and
used by no claim, is not carried.)  In the point branch `self.sigma` is set
to `np.array([[0,0],[0,0]])`, the zero matrix. -/
structure Bivarg where
  mu : Vec2
  point : Bool
  sigma : Mat2
  det : ℝ
  trace : Option ℝ
  chol : Option Mat2
  E : Option Mat2
  V : Option Mat2

/-- `Bivarg.__init__` (classes.py lines 93-145) after the covariance
specification has been parsed into the 2x2 matrix `S`: reject negative
diagonal variances with `ZeroException`; if the total variance is zero mark
the object as a point with zero covariance and `det = 0`; otherwise
eigendecompose, optionally rotate the eigenbasis by `θ`, reconstitute the
covariance, and derive `det`, `trace` and the Cholesky factor from it. -/
noncomputable def mkBivargM (mu : Vec2) (S : Mat2) (θ : ℝ) : Except PyError Bivarg :=
  if S 0 0 < 0 ∨ S 1 1 < 0 then .error .zeroException
  else if S 0 0 + S 1 1 = 0 then
    .ok ⟨mu, true, 0, 0, none, none, none, none⟩
  else
    .ok ⟨mu, false, bsigma S θ,
      bsigma S θ 0 0 * bsigma S θ 1 1 - bsigma S θ 0 1 * bsigma S θ 1 0,
      some (bsigma S θ 0 0 + bsigma S θ 1 1),
      some (cholOf (bsigma S θ)),
      some (eigh2 S).1,
      some (beigvecs S θ)⟩

/-- Full `Bivarg.__init__`: parse the covariance specification, then build. -/
noncomputable def mkBivarg (mu : Vec2) (spec : CovSpec) (θ : ℝ) : Except PyError Bivarg :=
  mkBivargM mu (parseSigma spec) θ

/-- `Bivarg.__add__` (classes.py lines 150-151): a new Bivarg with summed
means and summed covariances, built through the constructor (default
`theta = 0`). -/
noncomputable def Bivarg.add (A B : Bivarg) : Except PyError Bivarg :=
  mkBivarg (A.mu + B.mu) (.mat (A.sigma + B.sigma)) 0

/-- `Bivarg.__sub__` (classes.py lines 147-148): differenced means, summed
covariances. -/
noncomputable def Bivarg.sub (A B : Bivarg) : Except PyError Bivarg :=
  mkBivarg (A.mu - B.mu) (.mat (A.sigma + B.sigma)) 0

/-- Lightweight transformed-Bivarg result (classes.py `LittleBivarg`):
only `mu`, `sigma` and `det` are set. -/
structure LittleBivarg where
  mu : Vec2
  sigma : Mat2
  det : ℝ

/-- `LittleBivarg.__init__` (classes.py lines 228-233). -/
noncomputable def mkLittleBivarg (mu : Vec2) (sigma : Mat2) : LittleBivarg :=
  ⟨mu, sigma, sigma 0 0 * sigma 1 1 - sigma 1 0 * sigma 0 1⟩

/-- `Bivarg.transform` (classes.py lines 166-205), over the 7-parameter
vector `(dx0, dx1, theta, d00, d01, L0, L1)`.  Both accepted argument kinds
(a `Bgmap` and a raw 7-vector) extract exactly these slices, so the Bgmap
case is `Bivarg.transformBg` below.  The transformed centre is
`U·(mu∘L + dmu − d0) + d0` (line 190: the translation is added *inside* the
rotation).  The transformed covariance uses the stored eigenbasis
(`self.V`, `self.E`); on a constructed point those attributes do not exist,
but the point branch returns the zero covariance unchanged. -/
noncomputable def Bivarg.transform (b : Bivarg) (P : Fin 7 → ℝ) : Except PyError LittleBivarg :=
  let dmu : Vec2 := ![P 0, P 1]
  let θ := P 2
  let d0 : Vec2 := ![P 3, P 4]
  let L : Vec2 := ![P 5, P 6]
  let U := rotU θ
  let mu := U.mulVec (fun i => b.mu i * L i + dmu i - d0 i) + d0
  if b.point then .ok (mkLittleBivarg mu b.sigma)
  else
    match b.E, b.V with
    | some E0, some V0 =>
        .ok (mkLittleBivarg mu ((U * V0) * (Matrix.diagonal (fun i => L i) * E0) * (U * V0)ᵀ))
    | _, _ => .error .attributeError

/-- `Bivarg.sample` (classes.py lines 207-221): raises SamplingException on
a point; otherwise returns `mu + chol · stds[:,i]` for each draw.  The
standard-normal draws `stds` (`np.random.randn(2, n)`) are an explicit
argument. -/
noncomputable def Bivarg.sample (b : Bivarg) (n : ℕ) (stds : Fin 2 → ℕ → ℝ) :
    Except PyError (List Vec2) :=
  if b.point then .error .samplingException
  else
    match b.chol with
    | some c => .ok ((List.range n).map fun i => b.mu + c.mulVec ![stds 0 i, stds 1 i])
    | none => .error .attributeError

/-- Background mapping (classes.py `Bgmap`): a mean over the 7 parameters
`(dx0, dx1, theta, d00, d01, L0, L1)` and a 7x7 covariance whose entries may
be IEEE infinities (the default prior is `np.zeros(7) + np.inf` on the
diagonal), modelled as `EReal`. -/
structure Bgmap where
  mu : Fin 7 → ℝ
  sigma : Matrix (Fin 7) (Fin 7) EReal

/-- `Bivarg.transform` applied to a `Bgmap` argument: the Bgmap branch of
the input dispatch extracts the same parameter slices from `P.mu`. -/
noncomputable def Bivarg.transformBg (b : Bivarg) (M : Bgmap) : Except PyError LittleBivarg :=
  b.transform M.mu

/-- `np.isinf` on an extended-real entry. -/
def isInfE (x : EReal) : Prop := x = ⊤ ∨ x = ⊥

/-- The covariance matrix after the infinity masking in `Bgmap.llik`
(classes.py lines 63-71): rows and columns whose diagonal entry is infinite
are zeroed and the corresponding diagonal entries set to 1; the remaining
entries are read as reals. -/
noncomputable def Bgmap.maskedSigma (M : Bgmap) : Matrix (Fin 7) (Fin 7) ℝ :=
  Matrix.of fun i j =>
    if isInfE (M.sigma i i) ∨ isInfE (M.sigma j j) then (if i = j then 1 else 0)
    else (M.sigma i j).toReal

/-- The residual vector `delta = self.mu - P` with the entries at
infinite-variance parameters zeroed (classes.py lines 62, 67-68). -/
noncomputable def Bgmap.maskedDelta (M : Bgmap) (P : Fin 7 → ℝ) : Fin 7 → ℝ :=
  fun i => if isInfE (M.sigma i i) then 0 else M.mu i - P i

/-- `numpy.linalg.solve`: the exact solution of `A x = b` for invertible
`A`; raises LinAlgError when `A` is singular. -/
noncomputable def npSolve {n : ℕ} (A : Matrix (Fin n) (Fin n) ℝ) (b : Fin n → ℝ) :
    Except PyError (Fin n → ℝ) :=
  if IsUnit A.det then .ok (A⁻¹.mulVec b) else .error .linAlgError

/-- `Bgmap.llik` (classes.py lines 57-73):
`-0.5 * delta.dot(solve(sigma, delta))` after infinity masking. -/
noncomputable def Bgmap.llik (M : Bgmap) (P : Fin 7 → ℝ) : Except PyError ℝ :=
  (npSolve M.maskedSigma (M.maskedDelta P)).map fun x =>
    -(1 / 2) * (M.maskedDelta P ⬝ᵥ x)

/-- The rows of a 7x7 matrix as a plain list-of-lists, the shape-carrying
view numpy takes of `chol` inside `Bgmap.sample`'s `np.dot`. -/
def matRows (M : Matrix (Fin 7) (Fin 7) ℝ) : List (List ℝ) :=
  (List.finRange 7).map fun i => (List.finRange 7).map fun j => M i j

/-- `np.dot(M, v)` of a matrix (list of rows) with a 1-D vector: requires
every row length to equal the vector length, otherwise numpy raises
`ValueError: shapes not aligned`. -/
def npDotMV (rows : List (List ℝ)) (v : List ℝ) : Except PyError (List ℝ) :=
  if rows.all fun r => r.length == v.length then
    .ok (rows.map fun r => (List.zipWith (· * ·) r v).sum)
  else .error .valueError

/-- Column `i` of the `np.random.randn(2, len(self.mu))` draw matrix built
in `Bgmap.sample` (classes.py line 81): a length-2 vector `stds[:, i]`;
indexing past the 7 available columns raises IndexError. -/
def stdsCol (stds : Fin 2 → Fin 7 → ℝ) (i : ℕ) : Except PyError (List ℝ) :=
  if h : i < 7 then .ok [stds 0 ⟨i, h⟩, stds 1 ⟨i, h⟩] else .error .indexError

/-- `Bgmap.sample` (classes.py lines 75-83):
`[self.mu + np.dot(chol, stds[:,i]).T for i in range(n)]` with
`stds = np.random.randn(2, len(self.mu))` and `chol = cholesky(self.sigma)`.
The external `numpy.linalg.cholesky` is passed in as `cholImpl`; only the
7x7 shape of its result matters to the claims, and the comprehension is the
effectful map `mapM` (the first raised exception aborts it). -/
noncomputable def Bgmap.sampleModel
    (cholImpl : Matrix (Fin 7) (Fin 7) EReal → Matrix (Fin 7) (Fin 7) ℝ)
    (M : Bgmap) (stds : Fin 2 → Fin 7 → ℝ) (n : ℕ) :
    Except PyError (List (List ℝ)) :=
  (List.range n).mapM fun i =>
    (stdsCol stds i).bind fun v =>
      (npDotMV (matRows (cholImpl M.sigma)) v).map fun d =>
        List.zipWith (· + ·) ((List.finRange 7).map M.mu) d

/-- The x-component mean function `mx` built by `astrometry_mean`
(distortion.py lines 26-51), per evaluation point `x`. -/
noncomputable def astroMx (T : Fin 7 → ℝ) (x : Vec2) : ℝ :=
  let dmu : Vec2 := ![T 0, T 1]
  let θ := T 2
  let d0 : Vec2 := ![T 3, T 4]
  let L : Vec2 := ![T 5, T 6]
  let U := rotU θ
  let p : Vec2 := fun j => L j * x j + dmu j - d0 j
  x 0 - (U 0 0 * p 0 + U 0 1 * p 1) + d0 0

/-- The y-component mean function `my` built by `astrometry_mean`
(distortion.py lines 53-64). -/
noncomputable def astroMy (T : Fin 7 → ℝ) (x : Vec2) : ℝ :=
  let dmu : Vec2 := ![T 0, T 1]
  let θ := T 2
  let d0 : Vec2 := ![T 3, T 4]
  let L : Vec2 := ![T 5, T 6]
  let U := rotU θ
  let p : Vec2 := fun j => L j * x j + dmu j - d0 j
  x 1 - (U 1 0 * p 0 + U 1 1 * p 1) + d0 1

/-- `compute_residual` (distortion.py lines 85-97) over matched tie-object
lists of length `n`: per object, the empirical displacement minus the mean
function evaluated at the object's centre in the second frame. -/
noncomputable def compute_residual {n : ℕ} (A B : Fin n → Bivarg)
    (mx my : Vec2 → ℝ) : (Fin n → ℝ) × (Fin n → ℝ) :=
  (fun i => ((B i).mu 0 - (A i).mu 0) - mx ((B i).mu),
   fun i => ((B i).mu 1 - (A i).mu 1) - my ((B i).mu))

/-- Modelled from the spec: "residual = observed displacement (B.mean −
A.mean) minus the BackgroundMapping's predicted displacement at B's
location".  The mapping's predicted displacement at `x` is the transform of
`x` under the background mapping (the transformed-centre formula of
`Bivarg.transform` / spec section 4.1) minus `x` itself. -/
noncomputable def specPredictedDisp (T : Fin 7 → ℝ) (x : Vec2) : Vec2 :=
  ((rotU (T 2)).mulVec (fun j => x j * ![T 5, T 6] j + ![T 0, T 1] j - ![T 3, T 4] j)
    + ![T 3, T 4]) - x

/-- The formula for the transformed mean exactly as claim C3 words it:
"applying the scale L, then the rotation U about the center d0, then the
translation dmu", i.e. `U·(L∘mu − d0) + d0 + dmu`. -/
noncomputable def claimTransformMean (mu : Vec2) (P : Fin 7 → ℝ) : Vec2 :=
  (rotU (P 2)).mulVec (fun j => mu j * ![P 5, P 6] j - ![P 3, P 4] j)
    + ![P 3, P 4] + ![P 0, P 1]

/-- `pymc.gp.GPutils.trisolve`: the exact solution of the triangular system
`M x = y`; the claims only use it on invertible factors, where it returns
`M⁻¹ y`. -/
noncomputable def trisolve {n : ℕ} (M : Matrix (Fin n) (Fin n) ℝ) (y : Fin n → ℝ) :
    Fin n → ℝ :=
  M⁻¹.mulVec y

/-- `lnprob_cov` inside `optimise_HP` (distortion.py lines 153-178), given
the upper Cholesky factor `Uo` of the trial covariance (`C(x,x) = Uoᵀ·Uo`,
the source's own comment at line 156) and the residual vector `y` for one
axis: `L1 = y · trisolve(Uo, trisolve(Uoᵀ, y))` plus
`L2 = 2π · Σ 2·log(diag Uo)`. -/
noncomputable def lnprobCov {n : ℕ} (Uo : Matrix (Fin n) (Fin n) ℝ) (y : Fin n → ℝ) : ℝ :=
  y ⬝ᵥ trisolve Uo (trisolve Uoᵀ y) + 2 * Real.pi * ∑ i, 2 * Real.log (Uo i i)

/-- The scalar objective `lnprob_HP` hands to the minimiser (distortion.py
lines 181-196): the same trial covariance (hence the same factor `Uo`) is
built for both axes, and the per-axis terms are summed. -/
noncomputable def optimiseObjective {n : ℕ} (Uo : Matrix (Fin n) (Fin n) ℝ)
    (dx dy : Fin n → ℝ) : ℝ :=
  lnprobCov Uo dx + lnprobCov Uo dy

/-- The quadratic form `rᵀ C⁻¹ r` named by claim C8. -/
noncomputable def quadForm {n : ℕ} (C : Matrix (Fin n) (Fin n) ℝ) (r : Fin n → ℝ) : ℝ :=
  r ⬝ᵥ C⁻¹.mulVec r

/-- `Σ log(diag Uo)`, the sum named by claim C8's log-determinant term. -/
noncomputable def sumLogDiag {n : ℕ} (Uo : Matrix (Fin n) (Fin n) ℝ) : ℝ :=
  ∑ i, Real.log (Uo i i)

/-- The objective exactly as claim C8 words it: for each axis independently,
`rᵀ C⁻¹ r` plus a log-determinant term of `2π·Σ log(diag U)`, summed over
the x and y axes, with `C = Uᵀ·U`. -/
noncomputable def claimedObjective {n : ℕ} (Uo : Matrix (Fin n) (Fin n) ℝ)
    (dx dy : Fin n → ℝ) : ℝ :=
  (quadForm (Uoᵀ * Uo) dx + 2 * Real.pi * sumLogDiag Uo)
    + (quadForm (Uoᵀ * Uo) dy + 2 * Real.pi * sumLogDiag Uo)

/-- Python identifiers relevant to the `Amap.__init__` import and call
analysis. -/
inductive PyName where
  | astrometry_cov
  | astrometry_d2
  | astrometry_mean
  | compute_displacements
  | compute_residual
  | regression
  | optimise_HP
  | d2
  | scale
  | amp
  | var
deriving DecidableEq

/-- The top-level names defined by pyBA/distortion.py. -/
def distortionTopLevelNames : List PyName :=
  [.astrometry_cov, .astrometry_d2, .astrometry_mean, .compute_displacements,
   .compute_residual, .regression, .optimise_HP]

/-- The names `Amap.__init__` tries to import from pyBA.distortion
(classes.py line 255): `from pyBA.distortion import astrometry_cov, d2`. -/
def amapInitImports : List PyName := [.astrometry_cov, .d2]

/-- The parameter list of `astrometry_cov` as defined in distortion.py
line 6: `def astrometry_cov(scale=100., amp=1.)`. -/
def astrometryCovParams : List PyName := [.scale, .amp]

/-- Whether a Python call with `numPositional` positional arguments and the
given keyword-argument names binds against a parameter list: the positional
count must not exceed the parameters, and every keyword must name a
parameter not already bound positionally; otherwise Python raises
TypeError. -/
def callBindsOk (params : List PyName) (numPositional : ℕ) (kwargs : List PyName) : Bool :=
  decide (numPositional ≤ params.length)
    && kwargs.all fun k => (params.drop numPositional).contains k

/-- `Amap.__init__` (classes.py lines 251-279), modelled at the level of
its failure structure: it first executes
`from pyBA.distortion import astrometry_cov, d2` (which fails, since
distortion.py defines `astrometry_d2` but no `d2`), and — were that import
to resolve — would call
`astrometry_cov(self.d2, self.scale, self.amp, var=self.V)`, which cannot
bind against `def astrometry_cov(scale, amp)` (3 positional arguments and an
unknown keyword `var`).  The successful GP state is unreachable and is
represented by `Unit`. -/
def amapInit (P : Bgmap) {n : ℕ} (A B : Fin n → Bivarg) (scale : ℝ) (amp : Mat2) :
    Except PyError Unit :=
  if amapInitImports.all (fun s => distortionTopLevelNames.contains s) then
    if callBindsOk astrometryCovParams 3 [.var] then .ok () else .error .typeError
  else .error .importError

/-- Projection to the pair of attributes claim C2 speaks about. -/
def muSigma (b : Bivarg) : Vec2 × Mat2 := (b.mu, b.sigma)

/-- Projection to the derived quantities claim C1 speaks about:
determinant, trace and Cholesky factor. -/
def derivedQuantities (b : Bivarg) : ℝ × Option ℝ × Option Mat2 :=
  (b.det, b.trace, b.chol)

/-- `A + A`, named so that closed statements can bind the constructor
result without a lambda. -/
noncomputable def selfAdd (b : Bivarg) : Except PyError Bivarg := b.add b

/-- The degenerate point Bivarg produced by `Bivarg(mu=(0,0), sigma=0)`. -/
noncomputable def bvPoint0 : Bivarg := ⟨![0, 0], true, 0, 0, none, none, none, none⟩

/-- A Bgmap with zero mean and an all-zero (hence all-finite but singular)
covariance matrix. -/
noncomputable def bgZero : Bgmap := ⟨0, 0⟩

/-- A Bgmap whose first parameter has infinite prior variance and the rest
unit variance. -/
noncomputable def bgOneInf : Bgmap :=
  ⟨0, Matrix.diagonal ![⊤, 1, 1, 1, 1, 1, 1]⟩

/-- A Bgmap with zero mean and the identity (all-finite, invertible)
covariance. -/
noncomputable def bgId : Bgmap := ⟨0, 1⟩

/-- A constant `cholesky` implementation, for closed instantiations of
`Bgmap.sampleModel`. -/
noncomputable def cholConst0 : Matrix (Fin 7) (Fin 7) EReal → Matrix (Fin 7) (Fin 7) ℝ :=
  Function.const _ 0

/- ### Helper lemmas on the 2x2 eigendecomposition -/

/-- Transpose of an explicit 2x2 matrix literal. -/
theorem transpose2 {α : Type} (a b c d : α) : (!![a, b; c, d])ᵀ = !![a, c; b, d] := by
  ext i j
  fin_cases i <;> fin_cases j <;> rfl

/-- Scalar identity behind entry (0,0) of the reconstitution. -/
theorem eigh_entry00 (a b c D l1 l2 n1 n2 : ℝ)
    (hD2 : D ^ 2 = (a - c) ^ 2 + 4 * b ^ 2)
    (hl1 : l1 = (a + c - D) / 2) (hl2 : l2 = (a + c + D) / 2)
    (hn1 : n1 ^ 2 = b ^ 2 + (l1 - a) ^ 2) (hn2 : n2 ^ 2 = b ^ 2 + (l2 - a) ^ 2)
    (hn1p : 0 < n1) (hn2p : 0 < n2) :
    l1 * (b / n1) ^ 2 + l2 * (b / n2) ^ 2 = a := by
  have hn1ne : n1 ≠ 0 := ne_of_gt hn1p
  have hn2ne : n2 ≠ 0 := ne_of_gt hn2p
  have hprod : (l1 - a) * (l2 - a) = -b ^ 2 := by
    rw [hl1, hl2]; linear_combination (-(1 : ℝ) / 4) * hD2
  have humw : (l1 - a) - (l2 - a) = -D := by rw [hl1, hl2]; ring
  have e1 : n1 ^ 2 = -((l1 - a) * D) := by
    linear_combination hn1 + hprod + (l1 - a) * humw
  have e2 : n2 ^ 2 = (l2 - a) * D := by
    linear_combination hn2 + hprod - (l2 - a) * humw
  field_simp
  linear_combination (b ^ 2 * l2 - a * n2 ^ 2) * e1 + (b ^ 2 * l1 + a * (l1 - a) * D) * e2 +
    a * D ^ 2 * hprod - a * b ^ 2 * D * humw

/-- Scalar identity behind the off-diagonal entries of the reconstitution. -/
theorem eigh_entry01 (a b c D l1 l2 n1 n2 : ℝ)
    (hD2 : D ^ 2 = (a - c) ^ 2 + 4 * b ^ 2)
    (hl1 : l1 = (a + c - D) / 2) (hl2 : l2 = (a + c + D) / 2)
    (hn1 : n1 ^ 2 = b ^ 2 + (l1 - a) ^ 2) (hn2 : n2 ^ 2 = b ^ 2 + (l2 - a) ^ 2)
    (hn1p : 0 < n1) (hn2p : 0 < n2) :
    l1 * (b / n1) * ((l1 - a) / n1) + l2 * (b / n2) * ((l2 - a) / n2) = b := by
  have hn1ne : n1 ≠ 0 := ne_of_gt hn1p
  have hn2ne : n2 ≠ 0 := ne_of_gt hn2p
  have hprod : (l1 - a) * (l2 - a) = -b ^ 2 := by
    rw [hl1, hl2]; linear_combination (-(1 : ℝ) / 4) * hD2
  have humw : (l1 - a) - (l2 - a) = -D := by rw [hl1, hl2]; ring
  have e1 : n1 ^ 2 = -((l1 - a) * D) := by
    linear_combination hn1 + hprod + (l1 - a) * humw
  have e2 : n2 ^ 2 = (l2 - a) * D := by
    linear_combination hn2 + hprod - (l2 - a) * humw
  field_simp
  linear_combination (b * l2 * (l2 - a) - b * n2 ^ 2) * e1 +
    (b * (l1 - a) * l1 + b * (l1 - a) * D) * e2 +
    b * (l1 - a) * (l2 - a) * D * humw

/-- Scalar identity behind entry (1,1) of the reconstitution. -/
theorem eigh_entry11 (a b c D l1 l2 n1 n2 : ℝ)
    (hD2 : D ^ 2 = (a - c) ^ 2 + 4 * b ^ 2)
    (hl1 : l1 = (a + c - D) / 2) (hl2 : l2 = (a + c + D) / 2)
    (hn1 : n1 ^ 2 = b ^ 2 + (l1 - a) ^ 2) (hn2 : n2 ^ 2 = b ^ 2 + (l2 - a) ^ 2)
    (hn1p : 0 < n1) (hn2p : 0 < n2) :
    l1 * ((l1 - a) / n1) ^ 2 + l2 * ((l2 - a) / n2) ^ 2 = c := by
  have hn1ne : n1 ≠ 0 := ne_of_gt hn1p
  have hn2ne : n2 ≠ 0 := ne_of_gt hn2p
  have hprod : (l1 - a) * (l2 - a) = -b ^ 2 := by
    rw [hl1, hl2]; linear_combination (-(1 : ℝ) / 4) * hD2
  have humw : (l1 - a) - (l2 - a) = -D := by rw [hl1, hl2]; ring
  have huw : (l1 - a) + (l2 - a) = c - a := by rw [hl1, hl2]; ring
  have e1 : n1 ^ 2 = -((l1 - a) * D) := by
    linear_combination hn1 + hprod + (l1 - a) * humw
  have e2 : n2 ^ 2 = (l2 - a) * D := by
    linear_combination hn2 + hprod - (l2 - a) * humw
  field_simp
  linear_combination (l2 * (l2 - a) ^ 2 - c * n2 ^ 2) * e1 +
    (l1 * (l1 - a) ^ 2 + c * (l1 - a) * D) * e2 +
    (l1 - a) * (l2 - a) * D * (a + (l1 - a) + (l2 - a)) * humw -
    (l1 - a) * (l2 - a) * D * D * huw

/-- The 2x2 reconstitution, matrix form, for a nonzero off-diagonal. -/
theorem eighVEV (a b c D l1 l2 n1 n2 : ℝ) (hb : b ≠ 0)
    (hD : D = Real.sqrt ((a - c) ^ 2 + 4 * b ^ 2))
    (hl1 : l1 = (a + c - D) / 2) (hl2 : l2 = (a + c + D) / 2)
    (hn1 : n1 = Real.sqrt (b ^ 2 + (l1 - a) ^ 2))
    (hn2 : n2 = Real.sqrt (b ^ 2 + (l2 - a) ^ 2)) :
    !![b / n1, b / n2; (l1 - a) / n1, (l2 - a) / n2] * !![l1, 0; 0, l2] *
      (!![b / n1, b / n2; (l1 - a) / n1, (l2 - a) / n2])ᵀ = !![a, b; b, c] := by
  have hb2 : 0 < b ^ 2 := by positivity
  have hD2 : D ^ 2 = (a - c) ^ 2 + 4 * b ^ 2 := by
    rw [hD]; exact Real.sq_sqrt (by positivity)
  have hn1sq : n1 ^ 2 = b ^ 2 + (l1 - a) ^ 2 := by
    rw [hn1]; exact Real.sq_sqrt (by positivity)
  have hn2sq : n2 ^ 2 = b ^ 2 + (l2 - a) ^ 2 := by
    rw [hn2]; exact Real.sq_sqrt (by positivity)
  have hn1p : 0 < n1 := by
    rw [hn1]; exact Real.sqrt_pos.mpr (by positivity)
  have hn2p : 0 < n2 := by
    rw [hn2]; exact Real.sqrt_pos.mpr (by positivity)
  ext i j
  fin_cases i <;> fin_cases j <;>
    simp only [Matrix.mul_apply, Matrix.transpose_apply, Fin.sum_univ_two, Matrix.of_apply,
      Matrix.cons_val', Matrix.cons_val_zero, Matrix.cons_val_one, Matrix.head_cons,
      Matrix.head_fin_const, Matrix.empty_val', Matrix.cons_val_fin_one,
      Fin.zero_eta, Fin.mk_one]
  · linear_combination eigh_entry00 a b c D l1 l2 n1 n2 hD2 hl1 hl2 hn1sq hn2sq hn1p hn2p
  · linear_combination eigh_entry01 a b c D l1 l2 n1 n2 hD2 hl1 hl2 hn1sq hn2sq hn1p hn2p
  · linear_combination eigh_entry01 a b c D l1 l2 n1 n2 hD2 hl1 hl2 hn1sq hn2sq hn1p hn2p
  · linear_combination eigh_entry11 a b c D l1 l2 n1 n2 hD2 hl1 hl2 hn1sq hn2sq hn1p hn2p

/-- The only property of `numpy.linalg.eigh` the source relies on: the
decomposition returned by `eigh2` reconstitutes the (lower-triangle
symmetrised) input matrix, `V · E · Vᵀ = [[a, b], [b, c]]`. -/
theorem eigh2_reconstruct (M : Mat2) :
    (eigh2 M).2 * (eigh2 M).1 * ((eigh2 M).2)ᵀ = lowerSymm M := by
  by_cases hb : M 1 0 = 0
  · by_cases hac : M 0 0 ≤ M 1 1
    · rw [eigh2]
      simp only [if_pos hb, if_pos hac]
      simp only [Matrix.transpose_one, Matrix.one_mul, Matrix.mul_one]
      ext i j
      fin_cases i <;> fin_cases j <;> simp [lowerSymm, hb]
    · rw [eigh2]
      simp only [if_pos hb, if_neg hac]
      rw [transpose2, Matrix.mul_fin_two, Matrix.mul_fin_two]
      ext i j
      fin_cases i <;> fin_cases j <;> simp [lowerSymm, hb]
  · rw [eigh2]
    simp only [if_neg hb]
    exact eighVEV (M 0 0) (M 1 0) (M 1 1) _ _ _ _ _ hb rfl rfl rfl rfl rfl

/- ### Structural lemmas on the Bivarg constructor -/

/-- The rotation by zero is the identity matrix. -/
theorem rotU_zero : rotU 0 = 1 := by
  rw [rotU]
  ext i j
  fin_cases i <;> fin_cases j <;> simp [Matrix.one_apply]

/-- `lowerSymm` produces a symmetric matrix. -/
theorem lowerSymm_transpose (M : Mat2) : (lowerSymm M)ᵀ = lowerSymm M := by
  rw [lowerSymm, transpose2]

/-- The stored covariance is always the rotation-conjugated symmetrised
parsed covariance (for `θ = 0` the rotation is the identity). -/
theorem bsigma_eq (S : Mat2) (θ : ℝ) :
    bsigma S θ = rotU θ * lowerSymm S * (rotU θ)ᵀ := by
  rw [bsigma, beigvecs]
  by_cases hθ : θ = 0
  · rw [if_pos hθ, eigh2_reconstruct, hθ, rotU_zero, Matrix.transpose_one,
      Matrix.one_mul, Matrix.mul_one]
  · rw [if_neg hθ, Matrix.transpose_mul, show rotU θ * (eigh2 S).2 * (eigh2 S).1 *
      ((eigh2 S).2ᵀ * (rotU θ)ᵀ) = rotU θ * ((eigh2 S).2 * (eigh2 S).1 * (eigh2 S).2ᵀ) *
      (rotU θ)ᵀ by noncomm_ring, eigh2_reconstruct]

/-- The stored covariance is symmetric. -/
theorem bsigma_symm (S : Mat2) (θ : ℝ) : (bsigma S θ) 1 0 = (bsigma S θ) 0 1 := by
  have h : (bsigma S θ)ᵀ = bsigma S θ := by
    rw [bsigma_eq, Matrix.transpose_mul, Matrix.transpose_mul, Matrix.transpose_transpose,
      lowerSymm_transpose, Matrix.mul_assoc]
  have h' := congrFun (congrFun h 0) 1
  rw [Matrix.transpose_apply] at h'
  exact h'

/-- Conjugation by the rotation matrix preserves the sum of the diagonal. -/
theorem rot_conj_trace (X : Mat2) (θ : ℝ) :
    (rotU θ * X * (rotU θ)ᵀ) 0 0 + (rotU θ * X * (rotU θ)ᵀ) 1 1 = X 0 0 + X 1 1 := by
  simp only [rotU, Matrix.mul_apply, Matrix.transpose_apply, Fin.sum_univ_two,
    Matrix.of_apply, Matrix.cons_val', Matrix.cons_val_zero, Matrix.cons_val_one,
    Matrix.head_cons, Matrix.head_fin_const, Matrix.empty_val', Matrix.cons_val_fin_one]
  linear_combination (X 0 0 + X 1 1) * Real.sin_sq_add_cos_sq θ

/-- The stored covariance has the same total variance as the parsed input. -/
theorem bsigma_trace (S : Mat2) (θ : ℝ) :
    bsigma S θ 0 0 + bsigma S θ 1 1 = S 0 0 + S 1 1 := by
  rw [bsigma_eq, rot_conj_trace]
  simp [lowerSymm]

/-- The point branch of the constructor. -/
theorem mkBivargM_point (m : Vec2) (S : Mat2) (θ : ℝ)
    (hneg : ¬(S 0 0 < 0 ∨ S 1 1 < 0)) (hz : S 0 0 + S 1 1 = 0) :
    mkBivargM m S θ = .ok ⟨m, true, 0, 0, none, none, none, none⟩ := by
  rw [mkBivargM, if_neg hneg, if_pos hz]

/-- The non-point branch of the constructor. -/
theorem mkBivargM_nonpoint (m : Vec2) (S : Mat2) (θ : ℝ)
    (hneg : ¬(S 0 0 < 0 ∨ S 1 1 < 0)) (hz : ¬(S 0 0 + S 1 1 = 0)) :
    mkBivargM m S θ = .ok ⟨m, false, bsigma S θ,
      bsigma S θ 0 0 * bsigma S θ 1 1 - bsigma S θ 0 1 * bsigma S θ 1 0,
      some (bsigma S θ 0 0 + bsigma S θ 1 1),
      some (cholOf (bsigma S θ)),
      some (eigh2 S).1,
      some (beigvecs S θ)⟩ := by
  rw [mkBivargM, if_neg hneg, if_neg hz]

/-- Every constructed Bivarg has the given mean, a symmetric stored
covariance, and either the zero covariance (a point) or a positive total
variance. -/
theorem mkBivargM_inv {m : Vec2} {S : Mat2} {θ : ℝ} {A : Bivarg}
    (h : mkBivargM m S θ = .ok A) :
    A.mu = m ∧ A.sigma 1 0 = A.sigma 0 1 ∧
      (A.sigma = 0 ∨ 0 < A.sigma 0 0 + A.sigma 1 1) := by
  rw [mkBivargM] at h
  split_ifs at h with hneg hz
  · rw [Except.ok.injEq] at h
    subst h
    exact ⟨rfl, by simp, Or.inl rfl⟩
  · rw [Except.ok.injEq] at h
    subst h
    refine ⟨rfl, bsigma_symm S θ, Or.inr ?_⟩
    push_neg at hneg
    have h1 : bsigma S θ 0 0 + bsigma S θ 1 1 = S 0 0 + S 1 1 := bsigma_trace S θ
    have h2 : 0 < S 0 0 + S 1 1 :=
      lt_of_le_of_ne (add_nonneg hneg.1 hneg.2) (Ne.symm hz)
    show 0 < bsigma S θ 0 0 + bsigma S θ 1 1
    rw [h1]
    exact h2

/-- Constructing from a symmetric matrix with nonnegative diagonal which is
either zero or has positive total variance succeeds and stores exactly that
matrix (and the given mean). -/
theorem mkBivargM_map_muSigma (m : Vec2) (SS : Mat2) (hsym : SS 1 0 = SS 0 1)
    (h00 : 0 ≤ SS 0 0) (h11 : 0 ≤ SS 1 1) (hd : SS = 0 ∨ 0 < SS 0 0 + SS 1 1) :
    (mkBivargM m SS 0).map muSigma = .ok (m, SS) := by
  have hneg : ¬(SS 0 0 < 0 ∨ SS 1 1 < 0) := by push_neg; exact ⟨h00, h11⟩
  by_cases hz : SS 0 0 + SS 1 1 = 0
  · have hSS : SS = 0 := by
      rcases hd with h | h
      · exact h
      · exact absurd hz (ne_of_gt h)
    rw [mkBivargM_point m SS 0 hneg hz]
    simp [Except.map, muSigma, hSS]
  · rw [mkBivargM_nonpoint m SS 0 hneg hz]
    have hb : bsigma SS 0 = SS := by
      rw [bsigma_eq, rotU_zero, Matrix.transpose_one, Matrix.one_mul, Matrix.mul_one]
      ext i j
      fin_cases i <;> fin_cases j <;> simp [lowerSymm, hsym]
    simp [Except.map, muSigma, hb]

/- ### Claim theorems -/

/-- Claim C1: for every mean vector and every pair of valid covariance
specifications describing the same 2x2 covariance matrix, constructing a
Bivarg from each yields the same derived determinant, trace and
lower-triangular Cholesky factor (exactly, in the real model). -/
theorem claim1_spec_equivalence (mu : Vec2) (s1 s2 : CovSpec) (θ : ℝ)
    (h : parseSigma s1 = parseSigma s2) :
    (mkBivarg mu s1 θ).map derivedQuantities =
      (mkBivarg mu s2 θ).map derivedQuantities := by
  rw [mkBivarg, mkBivarg, h]

/-- Witness for C1: the scalar spec `4` and the full-matrix spec
`[[4,0],[0,4]]` describe the same covariance and yield the same derived
quantities. -/
theorem claim1_witness :
    parseSigma (CovSpec.scalar 4) = parseSigma (CovSpec.mat !![4, 0; 0, 4]) ∧
      (mkBivarg ![0, 0] (CovSpec.scalar 4) 0).map derivedQuantities =
        (mkBivarg ![0, 0] (CovSpec.mat !![4, 0; 0, 4]) 0).map derivedQuantities :=
  ⟨rfl, claim1_spec_equivalence ![0, 0] (CovSpec.scalar 4) (CovSpec.mat !![4, 0; 0, 4]) 0 rfl⟩

/-- Claim C4 (amended): a covariance specification with a negative diagonal
variance entry makes the constructor fail with a ZeroException (not a
ShapeException). -/
theorem claim4_negative_variance (mu : Vec2) (spec : CovSpec) (θ : ℝ)
    (h : parseSigma spec 0 0 < 0 ∨ parseSigma spec 1 1 < 0) :
    mkBivarg mu spec θ = .error .zeroException := by
  rw [mkBivarg, mkBivargM, if_pos h]

/-- Witness for C4 (amended): sigma = (-1, 1) fails with ZeroException. -/
theorem claim4_witness :
    (parseSigma (CovSpec.vec2 (-1) 1) 0 0 < 0 ∨
        parseSigma (CovSpec.vec2 (-1) 1) 1 1 < 0) ∧
      mkBivarg ![0, 0] (CovSpec.vec2 (-1) 1) 0 = .error .zeroException := by
  have h : parseSigma (CovSpec.vec2 (-1) 1) 0 0 < 0 := by norm_num [parseSigma]
  exact ⟨Or.inl h, claim4_negative_variance ![0, 0] (CovSpec.vec2 (-1) 1) 0 (Or.inl h)⟩

/-- Counterexample to C4 as stated: constructing with sigma = (-1, 1) does
not raise a ShapeException (it raises a ZeroException). -/
theorem claim4_counterexample :
    mkBivarg ![0, 0] (CovSpec.vec2 (-1) 1) 0 ≠ .error .shapeException := by
  have h : mkBivarg ![0, 0] (CovSpec.vec2 (-1) 1) 0 = .error .zeroException := by
    rw [mkBivarg, mkBivargM, if_pos (Or.inl (by norm_num [parseSigma] :
      parseSigma (CovSpec.vec2 (-1) 1) 0 0 < 0))]
  rw [h]
  simp

/-- Claim C5: constructing with total variance exactly zero yields a point
(point flag true, covariance exactly zero), and every call to sample on it
fails with a SamplingException. -/
theorem claim5_point_and_sampling (mu : Vec2) (spec : CovSpec) (θ : ℝ) (A : Bivarg)
    (hA : mkBivarg mu spec θ = .ok A)
    (h0 : parseSigma spec 0 0 + parseSigma spec 1 1 = 0) :
    A.point = true ∧ A.sigma = 0 ∧
      ∀ (n : ℕ) (stds : Fin 2 → ℕ → ℝ),
        A.sample n stds = .error .samplingException := by
  rw [mkBivarg, mkBivargM] at hA
  split_ifs at hA with hneg
  rw [Except.ok.injEq] at hA
  subst hA
  refine ⟨rfl, rfl, ?_⟩
  intro n stds
  simp [Bivarg.sample]

/-- Witness for C5: `Bivarg((0,0), sigma=0)` is a point with zero covariance
and sampling it fails. -/
theorem claim5_witness :
    mkBivarg ![0, 0] (CovSpec.scalar 0) 0 = .ok bvPoint0 ∧
      bvPoint0.point = true ∧ bvPoint0.sigma = 0 ∧
      bvPoint0.sample 1 0 = .error .samplingException := by
  have hmk : mkBivarg ![0, 0] (CovSpec.scalar 0) 0 = .ok bvPoint0 := by
    rw [mkBivarg, bvPoint0]
    exact mkBivargM_point ![0, 0] (parseSigma (CovSpec.scalar 0)) 0
      (by norm_num [parseSigma]) (by norm_num [parseSigma])
  have h := claim5_point_and_sampling ![0, 0] (CovSpec.scalar 0) 0 bvPoint0 hmk
    (by norm_num [parseSigma])
  exact ⟨hmk, h.1, h.2.1, h.2.2 1 0⟩

/-- Claim C3 (amended): `transform` maps the mean to
`U·(L∘mu + dmu − d0) + d0` — the scale is applied, then the translation dmu
is added, and the rotation about d0 acts on the already-translated point
(the translation is not applied after the rotation). -/
theorem claim3_transform_mean (b : Bivarg) (P : Fin 7 → ℝ) (r : LittleBivarg)
    (hr : b.transform P = .ok r) :
    r.mu = (rotU (P 2)).mulVec
        (fun i => b.mu i * ![P 5, P 6] i + ![P 0, P 1] i - ![P 3, P 4] i)
      + ![P 3, P 4] := by
  simp only [Bivarg.transform] at hr
  split_ifs at hr with hp
  · rw [Except.ok.injEq] at hr
    subst hr
    rfl
  · rcases hE : b.E with _ | E0 <;> rcases hV : b.V with _ | V0 <;>
      rw [hE, hV] at hr <;> try exact Except.noConfusion hr
    rw [Except.ok.injEq] at hr
    subst hr
    rfl

/-- Witness for C3 (amended): transforming the point Bivarg at the origin by
`(dmu=(1,0), θ=0, d0=(0,0), L=(1,1))` yields mean `(1,0)`. -/
theorem claim3_witness :
    (bvPoint0.transform ![1, 0, 0, 0, 0, 1, 1]).map LittleBivarg.mu =
      .ok ![1, 0] := by
  rcases h : bvPoint0.transform ![1, 0, 0, 0, 0, 1, 1] with e | r
  · exfalso
    simp [Bivarg.transform, bvPoint0] at h
  · have hmu := claim3_transform_mean bvPoint0 ![1, 0, 0, 0, 0, 1, 1] r h
    simp only [Except.map, hmu]
    congr 1
    funext i
    fin_cases i <;>
      simp [rotU, Matrix.mulVec, dotProduct, Fin.sum_univ_two, bvPoint0] <;>
      norm_num

/-- On a point Bivarg, `transform` succeeds and returns the transformed
centre together with the zero covariance it already carries. -/
theorem transform_point_mu (b : Bivarg) (hp : b.point = true) (P : Fin 7 → ℝ) :
    b.transform P = .ok (mkLittleBivarg
      ((rotU (P 2)).mulVec
          (fun i => b.mu i * ![P 5, P 6] i + ![P 0, P 1] i - ![P 3, P 4] i)
        + ![P 3, P 4]) b.sigma) := by
  simp only [Bivarg.transform]
  rw [if_pos hp]

/-- Counterexample to C3 as stated: with `dmu=(1,0)`, `θ=π/2`, `d0=(0,0)`,
`L=(1,1)` applied to the point at the origin, the code produces mean
`(0,1)` (the translation is rotated along), while the claim's formula
`U·(L∘mu − d0) + d0 + dmu` gives `(1,0)`. -/
theorem claim3_counterexample :
    (bvPoint0.transform ![1, 0, Real.pi / 2, 0, 0, 1, 1]).map LittleBivarg.mu =
        .ok ![0, 1] ∧
      claimTransformMean bvPoint0.mu ![1, 0, Real.pi / 2, 0, 0, 1, 1] = ![1, 0] ∧
      (![(0 : ℝ), 1] : Vec2) ≠ ![1, 0] := by
  refine ⟨?_, ?_, ?_⟩
  · rw [transform_point_mu bvPoint0 rfl]
    simp only [Except.map, mkLittleBivarg]
    congr 1
    funext i
    fin_cases i <;>
      simp [bvPoint0, rotU, Matrix.mulVec, dotProduct, Fin.sum_univ_two,
        Real.cos_pi_div_two, Real.sin_pi_div_two] <;>
      norm_num
  · funext i
    fin_cases i <;>
      simp [claimTransformMean, rotU, Matrix.mulVec, dotProduct, Fin.sum_univ_two,
        bvPoint0] <;>
      norm_num
  · intro h
    have h0 := congrFun h 0
    norm_num at h0

/-- Claim C2 (amended): for all constructed Bivarg instances A and B whose
summed covariance has nonnegative diagonal entries (always the case for
positive-semidefinite covariances, e.g. whenever both were built with
`theta = 0`), `A + B` yields mean `A.mu + B.mu` and covariance
`A.sigma + B.sigma`, and `A - B` yields mean `A.mu - B.mu` with covariance
again `A.sigma + B.sigma`. -/
theorem claim2_add_sub (muA muB : Vec2) (sA sB : CovSpec) (θA θB : ℝ) (A B : Bivarg)
    (hA : mkBivarg muA sA θA = .ok A) (hB : mkBivarg muB sB θB = .ok B)
    (h00 : 0 ≤ A.sigma 0 0 + B.sigma 0 0) (h11 : 0 ≤ A.sigma 1 1 + B.sigma 1 1) :
    (A.add B).map muSigma = .ok (A.mu + B.mu, A.sigma + B.sigma) ∧
      (A.sub B).map muSigma = .ok (A.mu - B.mu, A.sigma + B.sigma) := by
  obtain ⟨-, hsymA, hdA⟩ := mkBivargM_inv hA
  obtain ⟨-, hsymB, hdB⟩ := mkBivargM_inv hB
  have hsym : (A.sigma + B.sigma) 1 0 = (A.sigma + B.sigma) 0 1 := by
    simp [Matrix.add_apply, hsymA, hsymB]
  have h00' : 0 ≤ (A.sigma + B.sigma) 0 0 := by
    simpa [Matrix.add_apply] using h00
  have h11' : 0 ≤ (A.sigma + B.sigma) 1 1 := by
    simpa [Matrix.add_apply] using h11
  have hd : A.sigma + B.sigma = 0 ∨
      0 < (A.sigma + B.sigma) 0 0 + (A.sigma + B.sigma) 1 1 := by
    rcases hdA with hA0 | hAp
    · rcases hdB with hB0 | hBp
      · left
        rw [hA0, hB0, add_zero]
      · right
        simp only [Matrix.add_apply, hA0, Matrix.zero_apply, zero_add]
        linarith
    · right
      rcases hdB with hB0 | hBp
      · simp only [Matrix.add_apply, hB0, Matrix.zero_apply, add_zero]
        linarith
      · simp only [Matrix.add_apply]
        linarith
  exact ⟨mkBivargM_map_muSigma (A.mu + B.mu) (A.sigma + B.sigma) hsym h00' h11' hd,
    mkBivargM_map_muSigma (A.mu - B.mu) (A.sigma + B.sigma) hsym h00' h11' hd⟩

/-- Witness for C2 (amended), at the point Bivarg built from sigma = 0. -/
theorem claim2_witness :
    mkBivarg ![0, 0] (CovSpec.scalar 0) 0 = .ok bvPoint0 ∧
      0 ≤ bvPoint0.sigma 0 0 + bvPoint0.sigma 0 0 ∧
      0 ≤ bvPoint0.sigma 1 1 + bvPoint0.sigma 1 1 ∧
      (bvPoint0.add bvPoint0).map muSigma =
        .ok (bvPoint0.mu + bvPoint0.mu, bvPoint0.sigma + bvPoint0.sigma) ∧
      (bvPoint0.sub bvPoint0).map muSigma =
        .ok (bvPoint0.mu - bvPoint0.mu, bvPoint0.sigma + bvPoint0.sigma) := by
  have hmk : mkBivarg ![0, 0] (CovSpec.scalar 0) 0 = .ok bvPoint0 := by
    rw [mkBivarg, bvPoint0]
    exact mkBivargM_point ![0, 0] (parseSigma (CovSpec.scalar 0)) 0
      (by norm_num [parseSigma]) (by norm_num [parseSigma])
  have h00 : 0 ≤ bvPoint0.sigma 0 0 + bvPoint0.sigma 0 0 := by simp [bvPoint0]
  have h11 : 0 ≤ bvPoint0.sigma 1 1 + bvPoint0.sigma 1 1 := by simp [bvPoint0]
  have h := claim2_add_sub ![0, 0] ![0, 0] (CovSpec.scalar 0) (CovSpec.scalar 0) 0 0
    bvPoint0 bvPoint0 hmk hmk h00 h11
  exact ⟨hmk, h00, h11, h.1, h.2⟩

/-- The covariance stored for `Bivarg((0,0), [[1,5],[5,1]], theta=π/4)` has
a negative (0,0) entry: rotating the eigenbasis of this non-PSD input by
45 degrees diagonalises it to `[[-4,0],[0,6]]`. -/
theorem bsigma_rot_example : bsigma !![(1 : ℝ), 5; 5, 1] (Real.pi / 4) 0 0 = -4 := by
  have hL : lowerSymm !![(1 : ℝ), 5; 5, 1] = !![1, 5; 5, 1] := by
    ext i j
    fin_cases i <;> fin_cases j <;> simp [lowerSymm]
  rw [bsigma_eq, hL]
  have hs2 : Real.sqrt 2 * Real.sqrt 2 = 2 := Real.mul_self_sqrt (by norm_num)
  simp only [rotU, Matrix.mul_apply, Matrix.transpose_apply, Fin.sum_univ_two,
    Real.cos_pi_div_four, Real.sin_pi_div_four, Matrix.of_apply, Matrix.cons_val',
    Matrix.cons_val_zero, Matrix.cons_val_one, Matrix.head_cons, Matrix.head_fin_const,
    Matrix.empty_val', Matrix.cons_val_fin_one]
  linear_combination (-2 : ℝ) * hs2

/-- Counterexample to C2 as stated: `A = Bivarg((0,0), [[1,5],[5,1]],
theta=π/4)` is a valid constructed instance, yet `A + A` does not yield a
new instance at all — the constructor of the sum raises ZeroException,
because `A.sigma` has the negative diagonal entry -4. -/
theorem claim2_counterexample :
    (mkBivarg ![0, 0] (CovSpec.mat !![1, 5; 5, 1]) (Real.pi / 4)).bind selfAdd =
      .error .zeroException := by
  have hneg : ¬(parseSigma (CovSpec.mat !![(1 : ℝ), 5; 5, 1]) 0 0 < 0 ∨
      parseSigma (CovSpec.mat !![(1 : ℝ), 5; 5, 1]) 1 1 < 0) := by
    norm_num [parseSigma]
  have hz : ¬(parseSigma (CovSpec.mat !![(1 : ℝ), 5; 5, 1]) 0 0 +
      parseSigma (CovSpec.mat !![(1 : ℝ), 5; 5, 1]) 1 1 = 0) := by
    norm_num [parseSigma]
  rw [mkBivarg, mkBivargM_nonpoint ![0, 0] (parseSigma (CovSpec.mat !![1, 5; 5, 1]))
    (Real.pi / 4) hneg hz]
  show selfAdd _ = _
  rw [selfAdd, Bivarg.add, mkBivarg, mkBivargM]
  rw [if_pos]
  exact Or.inl (by
    show parseSigma (CovSpec.mat (bsigma (parseSigma (CovSpec.mat !![1, 5; 5, 1]))
      (Real.pi / 4) + bsigma (parseSigma (CovSpec.mat !![1, 5; 5, 1]))
      (Real.pi / 4))) 0 0 < 0
    rw [parseSigma, Matrix.add_apply]
    rw [show parseSigma (CovSpec.mat !![(1 : ℝ), 5; 5, 1]) = !![(1 : ℝ), 5; 5, 1] from rfl]
    rw [bsigma_rot_example]
    norm_num)

/- ### Bgmap log-likelihood (claim C6) -/

/-- The extended real 1 is not an infinity. -/
theorem one_not_inf : ¬ isInfE (1 : EReal) := by
  rw [isInfE]
  push_neg
  refine ⟨?_, ?_⟩
  · rw [← EReal.coe_one]
    exact EReal.coe_ne_top 1
  · rw [← EReal.coe_one]
    exact EReal.coe_ne_bot 1

/-- The extended real 0 is not an infinity. -/
theorem zero_not_inf : ¬ isInfE (0 : EReal) := by
  rw [isInfE]
  push_neg
  exact ⟨EReal.zero_ne_top, EReal.zero_ne_bot⟩

/-- Counterexample to C6 as stated: the Bgmap with the all-zero covariance
has an all-finite covariance, yet `llik(mu)` raises LinAlgError (the
masked matrix is singular and `np.linalg.solve` fails) instead of
returning 0. -/
theorem claim6_counterexample :
    bgZero.llik 0 = .error .linAlgError ∧ bgZero.llik 0 ≠ .ok 0 := by
  have hmask : bgZero.maskedSigma = 0 := by
    funext i j
    simp only [Bgmap.maskedSigma, bgZero, Matrix.of_apply, Matrix.zero_apply]
    rw [if_neg]
    · exact EReal.toReal_zero
    · rw [not_or]
      exact ⟨zero_not_inf, zero_not_inf⟩
  have hdet : ¬ IsUnit (bgZero.maskedSigma).det := by
    rw [hmask, Matrix.det_zero ⟨(0 : Fin 7)⟩]
    simp
  have h : bgZero.llik 0 = .error .linAlgError := by
    rw [Bgmap.llik, npSolve, if_neg hdet]
    rfl
  exact ⟨h, by rw [h]; simp⟩

/-- Claim C6 (amended): (a) for every Bgmap with all-finite covariance
whose (masked) covariance matrix is invertible, `llik` at the mean is
exactly 0; (b) for every Bgmap whose non-masked entries are finite, `llik`
is invariant under changes to the parameter components whose prior variance
is infinite. -/
theorem claim6_llik :
    (∀ M : Bgmap, (∀ i j, ¬ isInfE (M.sigma i j)) → IsUnit M.maskedSigma.det →
        M.llik M.mu = .ok 0) ∧
      (∀ (M : Bgmap) (P Q : Fin 7 → ℝ),
        (∀ i j, ¬ isInfE (M.sigma i i) → ¬ isInfE (M.sigma j j) →
          ¬ isInfE (M.sigma i j)) →
        (∀ i, ¬ isInfE (M.sigma i i) → P i = Q i) →
        M.llik P = M.llik Q) := by
  constructor
  · intro M hfin hunit
    have hdelta : M.maskedDelta M.mu = 0 := by
      funext i
      rw [Bgmap.maskedDelta]
      split_ifs <;> simp
    rw [Bgmap.llik, npSolve, if_pos hunit, hdelta]
    simp [Except.map, Matrix.zero_dotProduct]
  · intro M P Q hoff hagree
    have hdelta : M.maskedDelta P = M.maskedDelta Q := by
      funext i
      rw [Bgmap.maskedDelta, Bgmap.maskedDelta]
      split_ifs with h
      · rfl
      · rw [hagree i h]
    rw [Bgmap.llik, Bgmap.llik, hdelta]

/-- Witness for C6 (amended): the identity-covariance Bgmap has
`llik(mu) = 0`, and a Bgmap with infinite variance on the first parameter
gives the same log-likelihood when that parameter is changed from 0 to 5. -/
theorem claim6_witness :
    bgId.llik 0 = .ok 0 ∧
      bgOneInf.llik ![5, 0, 0, 0, 0, 0, 0] = bgOneInf.llik 0 := by
  constructor
  · have hfin : ∀ i j, ¬ isInfE (bgId.sigma i j) := by
      intro i j
      show ¬ isInfE ((1 : Matrix (Fin 7) (Fin 7) EReal) i j)
      rw [Matrix.one_apply]
      split_ifs
      · exact one_not_inf
      · exact zero_not_inf
    have hmask : bgId.maskedSigma = 1 := by
      funext i j
      simp only [Bgmap.maskedSigma, Matrix.of_apply]
      rw [if_neg (by rw [not_or]; exact ⟨hfin i i, hfin j j⟩)]
      show ((1 : Matrix (Fin 7) (Fin 7) EReal) i j).toReal = (1 : Matrix (Fin 7) (Fin 7) ℝ) i j
      rw [Matrix.one_apply, Matrix.one_apply]
      split_ifs
      · exact EReal.toReal_one
      · exact EReal.toReal_zero
    have hunit : IsUnit bgId.maskedSigma.det := by
      rw [hmask, Matrix.det_one]
      exact isUnit_one
    exact claim6_llik.1 bgId hfin hunit
  · have hoff : ∀ i j, ¬ isInfE (bgOneInf.sigma i i) → ¬ isInfE (bgOneInf.sigma j j) →
        ¬ isInfE (bgOneInf.sigma i j) := by
      intro i j hi _
      by_cases hij : i = j
      · subst hij
        exact hi
      · show ¬ isInfE (Matrix.diagonal ![⊤, 1, 1, 1, 1, 1, 1] i j)
        rw [Matrix.diagonal_apply_ne _ hij]
        exact zero_not_inf
    have hagree : ∀ i, ¬ isInfE (bgOneInf.sigma i i) →
        (![5, 0, 0, 0, 0, 0, 0] : Fin 7 → ℝ) i = (0 : Fin 7 → ℝ) i := by
      intro i hi
      have hd : bgOneInf.sigma i i = ![⊤, 1, 1, 1, 1, 1, 1] i :=
        Matrix.diagonal_apply_eq _ i
      fin_cases i
      · exact absurd (by rw [hd]; exact Or.inl rfl) hi
      all_goals rfl
    exact claim6_llik.2 bgOneInf ![5, 0, 0, 0, 0, 0, 0] 0 hoff hagree

/- ### Bgmap.sample shape bug (claim C9) -/

/-- Claim C9 (code evaluation): `Bgmap.sample(n)` never returns samples.
For every covariance, every `cholesky` implementation, every random draw
matrix and every `n ≥ 1`, the very first iteration computes
`np.dot(chol, stds[:, 0])` with a 7x7 matrix and a length-2 vector
(`stds = np.random.randn(2, len(self.mu))`), which raises ValueError. -/
theorem claim9_sample_shape_error
    (cholImpl : Matrix (Fin 7) (Fin 7) EReal → Matrix (Fin 7) (Fin 7) ℝ)
    (M : Bgmap) (stds : Fin 2 → Fin 7 → ℝ) (n : ℕ) (hn : 1 ≤ n) :
    Bgmap.sampleModel cholImpl M stds n = .error .valueError := by
  obtain ⟨m, rfl⟩ : ∃ m, n = m + 1 := ⟨n - 1, by omega⟩
  rw [Bgmap.sampleModel, List.range_succ_eq_map]
  have h0 : stdsCol stds 0 = .ok [stds 0 0, stds 1 0] := by
    rw [stdsCol, dif_pos (by norm_num : (0 : ℕ) < 7)]
    rfl
  have hdot : npDotMV (matRows (cholImpl M.sigma)) [stds 0 0, stds 1 0] =
      .error .valueError := by
    rw [npDotMV, if_neg]
    intro hall
    rw [List.all_eq_true] at hall
    have hmem : ((List.finRange 7).map fun j => cholImpl M.sigma 0 j) ∈
        matRows (cholImpl M.sigma) := by
      rw [matRows]
      exact List.mem_map_of_mem _ (List.mem_finRange 0)
    have hlen := hall _ hmem
    simp [List.length_map, List.length_finRange] at hlen
  have hf0 : ((stdsCol stds 0).bind fun v =>
      (npDotMV (matRows (cholImpl M.sigma)) v).map fun d =>
        List.zipWith (· + ·) ((List.finRange 7).map M.mu) d) = .error .valueError := by
    rw [h0]
    exact congrArg (fun e : Except PyError (List ℝ) =>
      e.map fun d => List.zipWith (· + ·) ((List.finRange 7).map M.mu) d) hdot
  simp only [List.mapM_cons, hf0]
  rfl

/-- Witness for C9: sampling once from the zero-covariance Bgmap fails with
the shape-mismatch ValueError. -/
theorem claim9_witness :
    Bgmap.sampleModel cholConst0 bgZero 0 1 = .error .valueError :=
  claim9_sample_shape_error cholConst0 bgZero 0 1 (by norm_num)

/- ### compute_residual vs the spec's predicted displacement (claim C7) -/

/-- Claim C7 (code evaluation at the failing input): with a single tie
object at the origin in both frames and the identity background mapping
`(dmu=(0,0), θ=0, d0=(1,1), L=(1,1))`, the observed displacement and the
mapping's predicted displacement are both zero, so the claim's residual is
0 — but `compute_residual` returns -2, because `astrometry_mean`'s `mx`
returns `x − rx + d0` rather than the displacement `rx + d0 − x` its own
comment describes. -/
theorem claim7_residual_divergence :
    (compute_residual (Function.const (Fin 1) bvPoint0) (Function.const (Fin 1) bvPoint0)
        (astroMx ![0, 0, 0, 1, 1, 1, 1]) (astroMy ![0, 0, 0, 1, 1, 1, 1])).1 0 = -2 ∧
      specPredictedDisp ![0, 0, 0, 1, 1, 1, 1] bvPoint0.mu 0 = 0 ∧
      (bvPoint0.mu 0 - bvPoint0.mu 0) -
        specPredictedDisp ![0, 0, 0, 1, 1, 1, 1] bvPoint0.mu 0 = 0 := by
  refine ⟨?_, ?_, ?_⟩
  · norm_num [compute_residual, astroMx, bvPoint0, rotU]
  · norm_num [specPredictedDisp, bvPoint0, rotU, Matrix.mulVec, dotProduct,
      Fin.sum_univ_two]
  · norm_num [specPredictedDisp, bvPoint0, rotU, Matrix.mulVec, dotProduct,
      Fin.sum_univ_two]

/- ### The hyperparameter objective (claim C8) -/

/-- Claim C8 (amended): given the upper Cholesky factor `Uo` of the trial
covariance `C = Uoᵀ·Uo` (invertible), the minimised objective equals, for
each axis independently, `rᵀ C⁻¹ r` (computed through the two triangular
solves) plus a log-determinant term of `2π · (2·Σ log(diag Uo))` — twice
the `2π·Σ log(diag U)` the claim states — summed over the x and y axes. -/
theorem claim8_objective (n : ℕ) (Uo : Matrix (Fin n) (Fin n) ℝ) (dx dy : Fin n → ℝ)
    (h : IsUnit Uo.det) :
    optimiseObjective Uo dx dy =
      (quadForm (Uoᵀ * Uo) dx + 2 * Real.pi * (2 * sumLogDiag Uo)) +
        (quadForm (Uoᵀ * Uo) dy + 2 * Real.pi * (2 * sumLogDiag Uo)) := by
  have key : ∀ y : Fin n → ℝ, trisolve Uo (trisolve Uoᵀ y) = (Uoᵀ * Uo)⁻¹.mulVec y := by
    intro y
    rw [trisolve, trisolve, Matrix.mulVec_mulVec, Matrix.mul_inv_rev]
  have hsum : ∑ i, 2 * Real.log (Uo i i) = 2 * sumLogDiag Uo := by
    rw [sumLogDiag, Finset.mul_sum]
  simp only [optimiseObjective, lnprobCov, quadForm]
  rw [key dx, key dy, hsum]

/-- Witness for C8 (amended), at the 1x1 factor `U = [[1]]` with zero
residuals. -/
theorem claim8_witness :
    IsUnit (Matrix.det !![(1 : ℝ)]) ∧
      optimiseObjective !![(1 : ℝ)] ![0] ![0] =
        (quadForm (!![(1 : ℝ)]ᵀ * !![(1 : ℝ)]) ![0] +
            2 * Real.pi * (2 * sumLogDiag !![(1 : ℝ)])) +
          (quadForm (!![(1 : ℝ)]ᵀ * !![(1 : ℝ)]) ![0] +
            2 * Real.pi * (2 * sumLogDiag !![(1 : ℝ)])) := by
  have h : IsUnit (Matrix.det !![(1 : ℝ)]) := by
    rw [Matrix.det_fin_one]
    simp
  exact ⟨h, claim8_objective 1 !![(1 : ℝ)] ![0] ![0] h⟩

/-- Counterexample to C8 as stated: at the 1x1 factor `U = [[e]]` with zero
residuals the code's objective is `8π` (the log-determinant term is
`2π·Σ 2·log(diag U)`), while the claim's formula gives `4π`. -/
theorem claim8_counterexample :
    optimiseObjective !![Real.exp 1] ![0] ![0] ≠
      claimedObjective !![Real.exp 1] ![0] ![0] := by
  have hlhs : optimiseObjective !![Real.exp 1] ![0] ![0] = 8 * Real.pi := by
    simp only [optimiseObjective, lnprobCov]
    simp [dotProduct, Fin.sum_univ_one, Real.log_exp]
    ring
  have hrhs : claimedObjective !![Real.exp 1] ![0] ![0] = 4 * Real.pi := by
    simp only [claimedObjective, quadForm, sumLogDiag]
    simp [dotProduct, Fin.sum_univ_one, Real.log_exp]
    ring
  rw [hlhs, hrhs]
  intro hcontra
  exact Real.pi_ne_zero (by linarith)

/- ### Amap constructor failure (claim C10) -/

/-- Claim C10: for every input, constructing an Amap fails before any GP
state is built: the import of `d2` from the distortion module fails (the
module defines `astrometry_d2`, not `d2`), and even the subsequent
`astrometry_cov(d2, scale, amp, var=V)` call could not bind against
`astrometry_cov(scale, amp)`; consequently no Amap operation is
reachable. -/
theorem claim10_amap_unconstructible :
    (∀ (P : Bgmap) (n : ℕ) (A B : Fin n → Bivarg) (scale : ℝ) (amp : Mat2),
        amapInit P A B scale amp = .error .importError) ∧
      distortionTopLevelNames.contains PyName.d2 = false ∧
      distortionTopLevelNames.contains PyName.astrometry_d2 = true ∧
      callBindsOk astrometryCovParams 3 [PyName.var] = false := by
  refine ⟨?_, by decide, by decide, by decide⟩
  intro P n A B scale amp
  rfl

end PyBA
